import Mathlib

set_option maxRecDepth 8000

/-
Verification of the analytics engine of the personal-expense repository
(`src/utils/analysis_utils.py` with the record type of
`src/database/models.py`).

Modelling conventions:
* monetary amounts are rationals (ℚ) — the exact-arithmetic reading of the
  spec's floating-point values;
* a Python dict produced by grouping is modelled as a lookup function
  `String → Option V` together with an explicit list of keys;
* `np.std` stores a square root; the model therefore stores the population
  variance (`var`) and exposes the standard deviation as `Real.sqrt var`
  (`CategoryStat.std`), which is what the source's `std` denotes exactly.
-/

/- Calendar date, `datetime.date`.  Fields are integers; genuine dates
satisfy `validDate` below. -/
structure Date where
  year : Int
  month : Int
  day : Int
deriving DecidableEq, Repr

/- Gregorian month lengths, Python's `calendar`/`datetime` rules. -/
def daysInMonth (y m : Int) : Int :=
  if m = 2 then (if (y % 4 = 0 ∧ y % 100 ≠ 0) ∨ y % 400 = 0 then 29 else 28)
  else if m = 4 ∨ m = 6 ∨ m = 9 ∨ m = 11 then 30 else 31

def validDate (d : Date) : Prop :=
  1 ≤ d.year ∧ d.year ≤ 9999 ∧ 1 ≤ d.month ∧ d.month ≤ 12 ∧
    1 ≤ d.day ∧ d.day ≤ daysInMonth d.year d.month

instance (d : Date) : Decidable (validDate d) := by
  unfold validDate; infer_instance

/- `database/models.py`, `@dataclass class Expense`.  `created_at` is never
read by the analytics functions and is omitted. -/
structure Expense where
  id : Option Int := none
  date : Option Date := none
  category : String := ""
  description : String := ""
  amount : ℚ := 0
  merchant : Option String := none
deriving DecidableEq, Repr

/- ------------------------------------------------------------------
   calculate_category_stats  (analysis_utils.py lines 73-103)
   ------------------------------------------------------------------ -/

/- The amounts appended to `category_data[c]`, in input order. -/
def amountsOf (l : List Expense) (c : String) : List ℚ :=
  (l.filter fun e => decide (e.category = c)).map Expense.amount

/- The keys of the grouped dict: categories occurring in the input. -/
def statCategories (l : List Expense) : List String :=
  (l.map Expense.category).dedup

/- `min(amounts)` / `max(amounts)` on a non-empty list. -/
def listMin : List ℚ → ℚ
  | [] => 0
  | x :: xs => xs.foldl Min.min x

def listMax : List ℚ → ℚ
  | [] => 0
  | x :: xs => xs.foldl Max.max x

/- Insertion sort, the model of the ascending sort inside `np.median`. -/
def insertSorted (x : ℚ) : List ℚ → List ℚ
  | [] => [x]
  | y :: ys => if x ≤ y then x :: y :: ys else y :: insertSorted x ys

def sortAsc (l : List ℚ) : List ℚ := l.foldr insertSorted []

/- `np.median`: middle element of the sorted list, or the average of the
two middle elements for even length. -/
def median (xs : List ℚ) : ℚ :=
  let s := sortAsc xs
  let n := xs.length
  if n % 2 = 1 then s.getD (n / 2) 0
  else (s.getD (n / 2 - 1) 0 + s.getD (n / 2) 0) / 2

/- Population variance `np.var` (mean of squared deviations, divide by N);
`np.std amounts = Real.sqrt (populationVar amounts)`. -/
def populationVar (xs : List ℚ) : ℚ :=
  let m := xs.sum / (xs.length : ℚ)
  (xs.map fun x => (x - m) ^ 2).sum / (xs.length : ℚ)

/- One entry of the per-category stats dict.  The source stores
`std = np.std amounts`; the model stores the variance, and
`CategoryStat.std` below is the source's `std` field exactly. -/
structure CategoryStat where
  total : ℚ
  count : ℕ
  mean : ℚ
  median : ℚ
  min : ℚ
  max : ℚ
  var : ℚ
deriving DecidableEq, Inhabited, Repr

noncomputable def CategoryStat.std (s : CategoryStat) : ℝ := Real.sqrt (s.var : ℝ)

/- `calculate_category_stats`, as a lookup function: `none` when the
category has no record (absent dict key), otherwise the stats computed
from the grouped amounts. -/
def calculate_category_stats (l : List Expense) (c : String) : Option CategoryStat :=
  let amounts := amountsOf l c
  if amounts = [] then none
  else some
    { total := amounts.sum
      count := amounts.length
      mean := amounts.sum / (amounts.length : ℚ)
      median := median amounts
      min := listMin amounts
      max := listMax amounts
      var := if 1 < amounts.length then populationVar amounts else 0 }

/- ------------------------------------------------------------------
   Helper lemmas about list sums
   ------------------------------------------------------------------ -/

lemma sum_map_filter_add_not (l : List Expense) (p : Expense → Bool) :
    (((l.filter p).map Expense.amount).sum : ℚ)
      + ((l.filter fun e => !p e).map Expense.amount).sum
      = (l.map Expense.amount).sum := by
  induction l with
  | nil => simp
  | cons a l ih =>
    by_cases h : p a = true <;> simp [List.filter_cons, h] <;> linarith

lemma amountsOf_filter_ne (l : List Expense) (c c' : String) (h : c' ≠ c) :
    amountsOf (l.filter fun e => !decide (e.category = c)) c' = amountsOf l c' := by
  unfold amountsOf
  rw [List.filter_filter]
  congr 1
  apply List.filter_congr
  intro a _
  by_cases hc' : a.category = c'
  · have hnc : ¬ a.category = c := by rw [hc']; exact h
    simp [hc', hnc, h]
  · simp [hc']

lemma sum_over_categories (cats : List String) (l : List Expense)
    (hnd : cats.Nodup) (hcov : ∀ e ∈ l, e.category ∈ cats) :
    ((cats.map fun c => (amountsOf l c).sum).sum : ℚ) = (l.map Expense.amount).sum := by
  induction cats generalizing l with
  | nil =>
    cases l with
    | nil => simp
    | cons e l => exact absurd (hcov e (by simp)) (by simp)
  | cons c cs ih =>
    have hnd' := hnd.of_cons
    have hcnotin : c ∉ cs := (List.nodup_cons.mp hnd).1
    set l' := l.filter fun e => !decide (e.category = c) with hl'
    have hcov' : ∀ e ∈ l', e.category ∈ cs := by
      intro e he
      rcases List.mem_filter.mp he with ⟨hel, hne⟩
      have := hcov e hel
      simp at hne
      rcases List.mem_cons.mp this with h | h
      · exact absurd h hne
      · exact h
    have hih := ih l' hnd' hcov'
    have hmaps : (cs.map fun c' => (amountsOf l' c').sum) = cs.map fun c' => (amountsOf l c').sum := by
      apply List.map_congr_left
      intro c' hc'
      have : c' ≠ c := fun hh => hcnotin (hh ▸ hc')
      rw [amountsOf_filter_ne l c c' this]
    rw [hmaps] at hih
    have hpart := sum_map_filter_add_not l (fun e => decide (e.category = c))
    simp only [List.map_cons, List.sum_cons, hih, hl']
    exact hpart

lemma mem_statCategories_iff (l : List Expense) (c : String) :
    c ∈ statCategories l ↔ ∃ e ∈ l, e.category = c := by
  simp [statCategories, List.mem_dedup, List.mem_map]

lemma amountsOf_ne_nil (l : List Expense) (c : String) (h : c ∈ statCategories l) :
    amountsOf l c ≠ [] := by
  rcases (mem_statCategories_iff l c).mp h with ⟨e, he, hec⟩
  simp only [amountsOf]
  intro hnil
  have : e ∈ l.filter fun e => decide (e.category = c) :=
    List.mem_filter.mpr ⟨he, by simp [hec]⟩
  rw [List.map_eq_nil] at hnil
  rw [hnil] at this
  exact absurd this (List.not_mem_nil e)

lemma stats_some_of_mem (l : List Expense) (c : String) (h : c ∈ statCategories l) :
    calculate_category_stats l c
      = some
        { total := (amountsOf l c).sum
          count := (amountsOf l c).length
          mean := (amountsOf l c).sum / ((amountsOf l c).length : ℚ)
          median := median (amountsOf l c)
          min := listMin (amountsOf l c)
          max := listMax (amountsOf l c)
          var := if 1 < (amountsOf l c).length then populationVar (amountsOf l c) else 0 } := by
  simp [calculate_category_stats, amountsOf_ne_nil l c h]

/-- C1: for every non-empty list of expense records, the sum of
`CategoryStat.total` over all categories present in the result of
`calculate_category_stats` equals the sum of the amounts of all input
records, exactly. -/
theorem category_totals_partition_sum (l : List Expense) (h : l ≠ []) :
    ((statCategories l).map fun c =>
        ((calculate_category_stats l c).elim 0 CategoryStat.total)).sum
      = (l.map Expense.amount).sum := by
  have hmaps : ((statCategories l).map fun c =>
      ((calculate_category_stats l c).elim 0 CategoryStat.total))
      = (statCategories l).map fun c => (amountsOf l c).sum := by
    apply List.map_congr_left
    intro c hc
    rw [stats_some_of_mem l c hc]
    rfl
  rw [hmaps]
  exact sum_over_categories (statCategories l) l (List.nodup_dedup _)
    (fun e he => (mem_statCategories_iff l e.category).mpr ⟨e, he, rfl⟩)

/-- C1 witness: the partition identity at a concrete two-category input. -/
theorem category_totals_partition_sum_witness :
    ([{ category := "food", amount := 7 }, { category := "cafe", amount := 5 },
      { category := "food", amount := 3 }] : List Expense) ≠ [] ∧
    (((statCategories [{ category := "food", amount := 7 }, { category := "cafe", amount := 5 },
        { category := "food", amount := 3 }]).map fun c =>
        ((calculate_category_stats [{ category := "food", amount := 7 },
            { category := "cafe", amount := 5 },
            { category := "food", amount := 3 }] c).elim 0 CategoryStat.total)).sum : ℚ)
      = ((([{ category := "food", amount := 7 }, { category := "cafe", amount := 5 },
            { category := "food", amount := 3 }] : List Expense).map Expense.amount).sum : ℚ) :=
  ⟨by decide, category_totals_partition_sum _ (by decide)⟩

/- ------------------------------------------------------------------
   detect_outliers  (analysis_utils.py lines 171-209)
   ------------------------------------------------------------------ -/

/- Python strings are modelled as lists of characters. -/
def digCh (n : ℕ) : Char := Char.ofNat (48 + n)

/- `date.isoformat()`: zero-padded `YYYY-MM-DD`. -/
def dateToIso (d : Date) : List Char :=
  [digCh (d.year.toNat / 1000), digCh (d.year.toNat / 100 % 10),
   digCh (d.year.toNat / 10 % 10), digCh (d.year.toNat % 10), '-',
   digCh (d.month.toNat / 10), digCh (d.month.toNat % 10), '-',
   digCh (d.day.toNat / 10), digCh (d.day.toNat % 10)]

/- One entry of the outlier report dict.  The source carries
`std = Real.sqrt var` and `threshold = mean + 2 * std`, both determined
by the `mean` and `var` recorded here. -/
structure Outlier where
  id : Option Int
  date : Option (List Char)
  category : String
  description : String
  amount : ℚ
  mean : ℚ
  var : ℚ
deriving DecidableEq, Repr

def mkOutlier (e : Expense) (s : CategoryStat) : Outlier :=
  { id := e.id
    date := e.date.map dateToIso
    category := e.category
    description := e.description
    amount := e.amount
    mean := s.mean
    var := s.var }

/- The source's test `expense.amount > stats.mean + 2 * stats.std`, with
`std = √var`.  Over the rationals this strict comparison is equivalent to
the decidable test below (proved in `detect_outliers_spec`): for any real
`√v` (which is `0` when `v < 0`), `m + 2√v < a ↔ m < a ∧ 4v < (a-m)²`. -/
def isOutlierAmount (a m v : ℚ) : Bool :=
  decide (m < a ∧ 4 * v < (a - m) ^ 2)

def detect_outliers (l : List Expense) : List Outlier :=
  l.filterMap fun e =>
    match calculate_category_stats l e.category with
    | none => none
    | some s => if isOutlierAmount e.amount s.mean s.var then some (mkOutlier e s) else none

lemma stats_isSome_of_mem (l : List Expense) (e : Expense) (he : e ∈ l) :
    (calculate_category_stats l e.category).isSome := by
  rw [stats_some_of_mem l e.category
    ((mem_statCategories_iff l e.category).mpr ⟨e, he, rfl⟩)]
  rfl

lemma outliers_filterMap_eq (L l : List Expense)
    (h : ∀ e ∈ l, (calculate_category_stats L e.category).isSome) :
    (l.filterMap fun e =>
        match calculate_category_stats L e.category with
        | none => none
        | some s => if isOutlierAmount e.amount s.mean s.var then some (mkOutlier e s) else none)
      = (l.filter fun e =>
            (calculate_category_stats L e.category).elim false
              fun s => isOutlierAmount e.amount s.mean s.var).map
          fun e => mkOutlier e ((calculate_category_stats L e.category).iget) := by
  induction l with
  | nil => rfl
  | cons a l ih =>
    obtain ⟨s, hs⟩ := Option.isSome_iff_exists.mp (h a (by simp))
    have ih' := ih fun e he => h e (by simp [he])
    by_cases hout : isOutlierAmount a.amount s.mean s.var = true <;>
      simp [List.filterMap_cons, List.filter_cons, hs, hout, ih']

lemma sqrt_ineq_iff (a m v : ℚ) :
    (m : ℝ) + 2 * Real.sqrt (v : ℝ) < (a : ℝ) ↔ (m < a ∧ 4 * v < (a - m) ^ 2) := by
  have hs : (0:ℝ) ≤ Real.sqrt (v : ℝ) := Real.sqrt_nonneg _
  constructor
  · intro h
    have ha : (m:ℝ) < a := by linarith
    refine ⟨by exact_mod_cast ha, ?_⟩
    have hgoal : (4 * v : ℝ) < ((a : ℝ) - m) ^ 2 := by
      rcases le_or_lt (v : ℝ) 0 with hv | hv
      · nlinarith
      · have hsq := Real.sq_sqrt hv.le
        nlinarith
    exact_mod_cast hgoal
  · rintro ⟨h1, h2⟩
    have ha : (m:ℝ) < a := by exact_mod_cast h1
    have h2' : (4 * v : ℝ) < ((a:ℝ) - m) ^ 2 := by exact_mod_cast h2
    rcases le_or_lt (v : ℝ) 0 with hv | hv
    · have : Real.sqrt (v : ℝ) = 0 := Real.sqrt_eq_zero_of_nonpos hv
      rw [this]
      linarith
    · have hsq := Real.sq_sqrt hv.le
      nlinarith [Real.sqrt_nonneg (v : ℝ)]

/- The spec's worked outlier example: one category with amounts
100, 100, 100, 100, 500. -/
def exOutlier5 : List Expense :=
  [{ category := "food", amount := 100 }, { category := "food", amount := 100 },
   { category := "food", amount := 100 }, { category := "food", amount := 100 },
   { category := "food", amount := 500 }]

/-- C2: `detect_outliers` returns exactly the input records whose amount
strictly exceeds `mean + 2 * std` of their own category (statistics taken
over the same input), in input order; the decidable test used by the
model is equivalent to the source's real-valued threshold comparison.  On
the spec's example `[100, 100, 100, 100, 500]` the category's stats are
mean 180, var 25600 (std 160), the threshold `180 + 2·160` equals 500, the
500-amount record is not reported, while amount 501 would pass the test. -/
theorem detect_outliers_spec (l : List Expense) :
    (detect_outliers l
      = (l.filter fun e =>
            (calculate_category_stats l e.category).elim false
              fun s => isOutlierAmount e.amount s.mean s.var).map
          fun e => mkOutlier e ((calculate_category_stats l e.category).iget))
    ∧ (∀ a m v : ℚ,
        isOutlierAmount a m v = true ↔ (m : ℝ) + 2 * Real.sqrt (v : ℝ) < (a : ℝ))
    ∧ calculate_category_stats exOutlier5 "food" = some ⟨900, 5, 180, 100, 100, 500, 25600⟩
    ∧ (180 : ℝ) + 2 * Real.sqrt ((25600 : ℚ) : ℝ) = 500
    ∧ detect_outliers exOutlier5 = []
    ∧ isOutlierAmount 501 180 25600 = true := by
  refine ⟨outliers_filterMap_eq l l (fun e he => stats_isSome_of_mem l e he),
    fun a m v => ?_, by with_unfolding_all rfl, ?_,
    by with_unfolding_all rfl, by with_unfolding_all rfl⟩
  · rw [isOutlierAmount, decide_eq_true_iff, sqrt_ineq_iff]
  · have : ((25600 : ℚ) : ℝ) = 160 ^ 2 := by norm_num
    rw [this, Real.sqrt_sq (by norm_num)]
    norm_num

/-- C5: a category with exactly one record (grouped amounts `[a]`) gets
`std = √var = 0` exactly and `mean = median = min = max = a` from
`calculate_category_stats`, and `detect_outliers` never reports any record
of that category (the threshold equals the amount; inclusion is strict). -/
theorem single_record_category_stats (l : List Expense) (c : String) (a : ℚ)
    (h : amountsOf l c = [a]) :
    calculate_category_stats l c
        = some { total := a, count := 1, mean := a, median := a, min := a, max := a, var := 0 }
      ∧ CategoryStat.std
          { total := a, count := 1, mean := a, median := a, min := a, max := a, var := 0 } = 0
      ∧ ∀ o ∈ detect_outliers l, o.category ≠ c := by
  have hcs : calculate_category_stats l c
      = some { total := a, count := 1, mean := a, median := a, min := a, max := a, var := 0 } := by
    simp [calculate_category_stats, h, median, sortAsc, insertSorted, listMin, listMax]
  refine ⟨hcs, by simp [CategoryStat.std], ?_⟩
  intro o ho hoc
  unfold detect_outliers at ho
  rcases List.mem_filterMap.mp ho with ⟨e, hel, he⟩
  split at he
  · exact absurd he (by simp)
  · rename_i s hstat
    split at he
    · rename_i hout
      have ho2 : o = mkOutlier e s := (Option.some.inj he).symm
      have hcat : e.category = c := by rw [ho2] at hoc; exact hoc
      rw [hcat, hcs] at hstat
      have hsv : s = ⟨a, 1, a, a, a, a, 0⟩ := (Option.some.inj hstat).symm
      have hea : e.amount ∈ amountsOf l c :=
        List.mem_map_of_mem Expense.amount
          (List.mem_filter.mpr ⟨hel, by simp [hcat]⟩)
      rw [h] at hea
      have hea' : e.amount = a := by simpa using hea
      rw [hsv, hea'] at hout
      simp only [isOutlierAmount, decide_eq_true_eq] at hout
      exact absurd hout.1 (lt_irrefl a)
    · exact absurd he (by simp)

/-- C5 witness: the single-record property at a concrete input. -/
theorem single_record_category_stats_witness :
    amountsOf [{ category := "food", amount := 42 }, { category := "cafe", amount := 1 }]
        "food" = [42]
    ∧ (calculate_category_stats
          [{ category := "food", amount := 42 }, { category := "cafe", amount := 1 }] "food"
        = some { total := 42, count := 1, mean := 42, median := 42, min := 42, max := 42, var := 0 }
      ∧ CategoryStat.std
          { total := 42, count := 1, mean := 42, median := 42, min := 42, max := 42, var := 0 } = 0
      ∧ ∀ o ∈ detect_outliers
            [{ category := "food", amount := 42 }, { category := "cafe", amount := 1 }],
          o.category ≠ "food") :=
  ⟨by with_unfolding_all rfl,
    single_record_category_stats _ _ _ (by with_unfolding_all rfl)⟩

/- ------------------------------------------------------------------
   calculate_mom_growth  (analysis_utils.py lines 106-168)
   ------------------------------------------------------------------ -/

/- Python `date` ordering (lexicographic on year, month, day). -/
def dateLe (a b : Date) : Bool :=
  decide (a.year < b.year ∨ (a.year = b.year ∧
    (a.month < b.month ∨ (a.month = b.month ∧ a.day ≤ b.day))))

def inRange (d lo hi : Date) : Bool := dateLe lo d && dateLe d hi

/- First day of the reference month (`current_start`). -/
def curStart (ref : Date) : Date := ⟨ref.year, ref.month, 1⟩

/- First/last day of the previous month, with the January rollover of the
source; `prev_end = date(y, m, 1) - timedelta(days=1)`, i.e. the last day
of the previous month. -/
def prevStart (ref : Date) : Date :=
  if ref.month = 1 then ⟨ref.year - 1, 12, 1⟩ else ⟨ref.year, ref.month - 1, 1⟩

def prevEnd (ref : Date) : Date :=
  if ref.month = 1 then ⟨ref.year - 1, 12, 31⟩
  else ⟨ref.year, ref.month - 1, daysInMonth ref.year (ref.month - 1)⟩

/- `current_end`: the source adds 32 days to `current_start` and steps
back to the day before that month's first day — the last day of the
reference month. -/
def curEnd (ref : Date) : Date := ⟨ref.year, ref.month, daysInMonth ref.year ref.month⟩

/- Membership in the previous-month bucket (dateless records skipped). -/
def inPrevRange (ref : Date) (e : Expense) : Bool :=
  match e.date with
  | none => false
  | some d => inRange d (prevStart ref) (prevEnd ref)

/- Membership in the current-month bucket: the source's `elif`, so a date
already captured by the previous-month test is excluded. -/
def inCurRange (ref : Date) (e : Expense) : Bool :=
  match e.date with
  | none => false
  | some d => !inRange d (prevStart ref) (prevEnd ref)
      && inRange d (curStart ref) (curEnd ref)

/- Per-category total of one bucket (`defaultdict(float)` accumulation). -/
def bucketTotal (l : List Expense) (p : Expense → Bool) (c : String) : ℚ :=
  ((l.filter fun e => p e && decide (e.category = c)).map Expense.amount).sum

/- Union of the keys of the two monthly bucket dicts. -/
def momCategories (l : List Expense) (ref : Date) : List String :=
  ((l.filter fun e => inPrevRange ref e || inCurRange ref e).map Expense.category).dedup

/- A value of the MoM dict: `float('inf')` or a percentage. -/
inductive Growth where
  | unbounded
  | pct (x : ℚ)
deriving DecidableEq, Repr

def calculate_mom_growth (l : List Expense) (ref : Date) (c : String) : Option Growth :=
  if l = [] then none
  else if c ∈ momCategories l ref then
    if bucketTotal l (inPrevRange ref) c = 0 then
      (if 0 < bucketTotal l (inCurRange ref) c then some Growth.unbounded
       else some (Growth.pct 0))
    else some (Growth.pct ((bucketTotal l (inCurRange ref) c
        - bucketTotal l (inPrevRange ref) c) / bucketTotal l (inPrevRange ref) c * 100))
  else none

lemma bucketTotal_nonneg (l : List Expense) (p : Expense → Bool) (c : String)
    (hnn : ∀ e ∈ l, 0 ≤ e.amount) : 0 ≤ bucketTotal l p c := by
  apply List.sum_nonneg
  intro x hx
  rcases List.mem_map.mp hx with ⟨e, hef, rfl⟩
  exact hnn e (List.mem_of_mem_filter hef)

lemma momCategories_ne_empty (l : List Expense) (ref : Date) (c : String)
    (h : c ∈ momCategories l ref) : l ≠ [] := by
  rintro rfl
  simp [momCategories] at h

/-- C3: for every record list with non-negative amounts and reference
month, `calculate_mom_growth` is defined exactly on the union of the two
monthly buckets' categories, and there maps a category to: the unbounded
sentinel when the previous-month total is 0 and the current-month total is
positive, `0.0` when both totals are 0, and `(cur - prev)/prev * 100`
otherwise. -/
theorem calculate_mom_growth_spec (l : List Expense) (ref : Date) (c : String)
    (hnn : ∀ e ∈ l, 0 ≤ e.amount) :
    ((calculate_mom_growth l ref c).isSome ↔ c ∈ momCategories l ref)
    ∧ (c ∈ momCategories l ref →
        (bucketTotal l (inPrevRange ref) c = 0 →
          0 < bucketTotal l (inCurRange ref) c →
          calculate_mom_growth l ref c = some Growth.unbounded)
        ∧ (bucketTotal l (inPrevRange ref) c = 0 →
            bucketTotal l (inCurRange ref) c = 0 →
            calculate_mom_growth l ref c = some (Growth.pct 0))
        ∧ (¬(bucketTotal l (inPrevRange ref) c = 0 ∧
              0 < bucketTotal l (inCurRange ref) c) →
           ¬(bucketTotal l (inPrevRange ref) c = 0 ∧
              bucketTotal l (inCurRange ref) c = 0) →
            calculate_mom_growth l ref c
              = some (Growth.pct ((bucketTotal l (inCurRange ref) c
                  - bucketTotal l (inPrevRange ref) c)
                  / bucketTotal l (inPrevRange ref) c * 100)))) := by
  constructor
  · constructor
    · intro hsome
      by_contra hmem
      unfold calculate_mom_growth at hsome
      by_cases hle : l = [] <;> simp [hle, hmem] at hsome
    · intro hmem
      have hl := momCategories_ne_empty l ref c hmem
      unfold calculate_mom_growth
      rw [if_neg hl, if_pos hmem]
      split
      · split <;> rfl
      · rfl
  · intro hmem
    have hl := momCategories_ne_empty l ref c hmem
    have hcur := bucketTotal_nonneg l (inCurRange ref) c hnn
    refine ⟨?_, ?_, ?_⟩
    · intro hp hc
      unfold calculate_mom_growth
      simp [hl, hmem, hp, hc]
    · intro hp hc
      unfold calculate_mom_growth
      simp [hl, hmem, hp, hc]
    · intro h1 h2
      have hp : bucketTotal l (inPrevRange ref) c ≠ 0 := by
        intro hp0
        rcases lt_or_eq_of_le hcur with hlt | heq
        · exact h1 ⟨hp0, hlt⟩
        · exact h2 ⟨hp0, heq.symm⟩
      unfold calculate_mom_growth
      simp [hl, hmem, hp]

/- The spec's MoM example: food 200 in 2024-01, food 150 in 2024-02,
reference month 2024-02. -/
def exGrowth : List Expense :=
  [{ date := some ⟨2024, 1, 10⟩, category := "food", amount := 200 },
   { date := some ⟨2024, 2, 5⟩, category := "food", amount := 150 }]

/-- C3 witness: previous total 200 and current total 150 yield exactly
-25.0 for the spec's concrete input. -/
theorem calculate_mom_growth_spec_witness :
    calculate_mom_growth exGrowth ⟨2024, 2, 15⟩ "food" = some (Growth.pct (-25)) := by
  have hprev : bucketTotal exGrowth (inPrevRange ⟨2024, 2, 15⟩) "food" = 200 := by
    with_unfolding_all rfl
  have hcur : bucketTotal exGrowth (inCurRange ⟨2024, 2, 15⟩) "food" = 150 := by
    with_unfolding_all rfl
  have hnn : ∀ e ∈ exGrowth, 0 ≤ e.amount := by
    intro e he
    fin_cases he <;> norm_num
  have h := ((calculate_mom_growth_spec exGrowth ⟨2024, 2, 15⟩ "food" hnn).2
    (by decide)).2.2 (by rw [hprev]; norm_num) (by rw [hprev]; norm_num)
  rw [h, hprev, hcur]
  norm_num

/-- C10: with non-negative amounts, every numeric (non-sentinel) value
produced by `calculate_mom_growth` is at least -100. -/
theorem mom_growth_lower_bound (l : List Expense) (ref : Date) (c : String) (x : ℚ)
    (hnn : ∀ e ∈ l, 0 ≤ e.amount)
    (h : calculate_mom_growth l ref c = some (Growth.pct x)) : -100 ≤ x := by
  unfold calculate_mom_growth at h
  by_cases hl : l = []
  · simp [hl] at h
  · by_cases hmem : c ∈ momCategories l ref
    · simp only [hl, hmem, if_false, if_true] at h
      by_cases hp : bucketTotal l (inPrevRange ref) c = 0
      · rw [if_pos hp] at h
        by_cases hc : 0 < bucketTotal l (inCurRange ref) c
        · rw [if_pos hc] at h
          exact absurd (Option.some.inj h) (by simp)
        · rw [if_neg hc] at h
          have : x = 0 := (Growth.pct.inj (Option.some.inj h)).symm
          rw [this]; norm_num
      · rw [if_neg hp] at h
        have hx : x = (bucketTotal l (inCurRange ref) c
            - bucketTotal l (inPrevRange ref) c)
            / bucketTotal l (inPrevRange ref) c * 100 :=
          (Growth.pct.inj (Option.some.inj h)).symm
        have hprevpos : 0 < bucketTotal l (inPrevRange ref) c :=
          lt_of_le_of_ne (bucketTotal_nonneg l _ c hnn) (Ne.symm hp)
        have hcur := bucketTotal_nonneg l (inCurRange ref) c hnn
        rw [hx, div_mul_eq_mul_div, le_div_iff hprevpos]
        nlinarith
    · simp [hl, hmem] at h

/-- C10 witness: the bound at a concrete input (previous 200, current
150, growth -25 ≥ -100). -/
theorem mom_growth_lower_bound_witness :
    (∀ e ∈ exGrowth, 0 ≤ e.amount)
    ∧ calculate_mom_growth exGrowth ⟨2024, 2, 15⟩ "food" = some (Growth.pct (-25))
    ∧ (-100 : ℚ) ≤ -25 :=
  ⟨fun e he => by fin_cases he <;> norm_num,
   calculate_mom_growth_spec_witness,
   mom_growth_lower_bound exGrowth ⟨2024, 2, 15⟩ "food" (-25)
     (fun e he => by fin_cases he <;> norm_num)
     calculate_mom_growth_spec_witness⟩

/- ------------------------------------------------------------------
   predict_monthly_expense  (analysis_utils.py lines 212-293)
   ------------------------------------------------------------------ -/

/- `(expense.date.year, expense.date.month)`, the monthly bucket key. -/
def monthKeyOf (e : Expense) : Option (Int × Int) :=
  e.date.map fun d => (d.year, d.month)

/- The keys of `monthly_data` (dateless records skipped). -/
def monthKeys (l : List Expense) : List (Int × Int) :=
  (l.filterMap monthKeyOf).dedup

/- Python tuple comparison (lexicographic), for `min(monthly_data.keys())`. -/
def keyLe (a b : Int × Int) : Bool :=
  decide (a.1 < b.1 ∨ (a.1 = b.1 ∧ a.2 ≤ b.2))

def minKey : List (Int × Int) → Int × Int
  | [] => (0, 0)
  | k :: ks => ks.foldl (fun a b => if keyLe a b then a else b) k

/- `months_since_start`: zero-based global month index relative to the
earliest month key. -/
def monthIndex (mk k : Int × Int) : Int := (k.1 - mk.1) * 12 + (k.2 - mk.2)

/- `monthly_data[month_key][category]`: the accumulated total. -/
def monthCatTotal (l : List Expense) (k : Int × Int) (c : String) : ℚ :=
  bucketTotal l (fun e => decide (monthKeyOf e = some k)) c

/- The month keys in which `category in month_data` holds. -/
def catMonths (l : List Expense) (c : String) : List (Int × Int) :=
  (monthKeys l).filter fun k =>
    l.any fun e => decide (monthKeyOf e = some k) && decide (e.category = c)

/- `all_categories`: categories appearing in some monthly bucket. -/
def predCategories (l : List Expense) : List String :=
  ((l.filter fun e => e.date.isSome).map Expense.category).dedup

/- Ordinary least squares over (x, y) points, the closed form of
`LinearRegression().fit` with one predictor.  `ols_min` below proves this
is the least-squares minimiser. -/
def sumX (pts : List (ℚ × ℚ)) : ℚ := (pts.map Prod.fst).sum

def sumY (pts : List (ℚ × ℚ)) : ℚ := (pts.map Prod.snd).sum

def sumXX (pts : List (ℚ × ℚ)) : ℚ := (pts.map fun p => p.1 ^ 2).sum

def sumXY (pts : List (ℚ × ℚ)) : ℚ := (pts.map fun p => p.1 * p.2).sum

def olsDenom (pts : List (ℚ × ℚ)) : ℚ := (pts.length : ℚ) * sumXX pts - (sumX pts) ^ 2

def olsSlope (pts : List (ℚ × ℚ)) : ℚ :=
  ((pts.length : ℚ) * sumXY pts - sumX pts * sumY pts) / olsDenom pts

def olsIntercept (pts : List (ℚ × ℚ)) : ℚ :=
  (sumY pts - olsSlope pts * sumX pts) / (pts.length : ℚ)

/- Sum of squared residuals of the affine predictor `y = a + b x`. -/
def lossAt (pts : List (ℚ × ℚ)) (a b : ℚ) : ℚ :=
  (pts.map fun p => (p.2 - (a + b * p.1)) ^ 2).sum

/- The per-category regression sample: (global month index, monthly total). -/
def catPoints (l : List Expense) (c : String) : List (ℚ × ℚ) :=
  (catMonths l c).map fun k =>
    ((monthIndex (minKey (monthKeys l)) k : ℚ), monthCatTotal l k c)

def predict_monthly_expense (l : List Expense) (target : Int × Int) (c : String) : Option ℚ :=
  if l = [] then none
  else if c ∈ predCategories l then
    if (catMonths l c).length < 2 then
      some (((catMonths l c).map fun k => monthCatTotal l k c).sum
        / ((catMonths l c).length : ℚ))
    else
      some (max 0 (olsIntercept (catPoints l c) + olsSlope (catPoints l c)
        * (monthIndex (minKey (monthKeys l)) target : ℚ)))
  else none

/- ------------------------------------------------------------------
   Least-squares lemmas
   ------------------------------------------------------------------ -/

lemma sum_map_add (xs : List ℚ) (f g : ℚ → ℚ) :
    (xs.map fun x => f x + g x).sum = (xs.map f).sum + (xs.map g).sum := by
  induction xs with
  | nil => simp
  | cons a xs ih => simp only [List.map_cons, List.sum_cons, ih]; ring

lemma sum_pos_of_mem_pos :
    ∀ l : List ℚ, (∀ y ∈ l, 0 ≤ y) → ∀ x, x ∈ l → 0 < x → 0 < l.sum := by
  intro l
  induction l with
  | nil => intro _ x hx; simp at hx
  | cons a l ih =>
    intro hge x hx hpos
    have hsum : 0 ≤ l.sum := List.sum_nonneg fun y hy => hge y (by simp [hy])
    have ha : 0 ≤ a := hge a (by simp)
    rcases List.mem_cons.mp hx with rfl | hx'
    · simp only [List.sum_cons]; linarith
    · have := ih (fun y hy => hge y (by simp [hy])) x hx' hpos
      simp only [List.sum_cons]; linarith

lemma devSq_sum (a : ℚ) (xs : List ℚ) :
    (xs.map fun y => (a - y) ^ 2).sum
      = (xs.length : ℚ) * a ^ 2 - 2 * a * xs.sum + (xs.map fun y => y ^ 2).sum := by
  induction xs with
  | nil => simp
  | cons b xs ih =>
    simp only [List.map_cons, List.sum_cons, List.length_cons]
    push_cast
    linear_combination ih

lemma pairSq (xs : List ℚ) :
    (xs.map fun x => (xs.map fun y => (x - y) ^ 2).sum).sum
      = 2 * ((xs.length : ℚ) * (xs.map fun y => y ^ 2).sum - xs.sum ^ 2) := by
  induction xs with
  | nil => simp
  | cons a xs ih =>
    simp only [List.map_cons, List.sum_cons, List.length_cons]
    rw [sum_map_add xs (fun x => (x - a) ^ 2) (fun x => (xs.map fun y => (x - y) ^ 2).sum)]
    have hswap : (xs.map fun x => (x - a) ^ 2) = xs.map fun x => (a - x) ^ 2 :=
      List.map_congr_left fun x _ => by ring
    rw [hswap, devSq_sum a xs]
    push_cast
    linear_combination ih

lemma denom_pos (xs : List ℚ) (hnd : xs.Nodup) (h2 : 2 ≤ xs.length) :
    0 < (xs.length : ℚ) * (xs.map fun y => y ^ 2).sum - xs.sum ^ 2 := by
  rcases xs with _ | ⟨x1, xs⟩
  · simp at h2
  rcases xs with _ | ⟨x2, rest⟩
  · simp at h2
  have hne : x1 ≠ x2 := by
    have := (List.nodup_cons.mp hnd).1
    simp at this
    exact this.1
  have hsq_pos : 0 < (x1 - x2) ^ 2 :=
    lt_of_le_of_ne (sq_nonneg _) (Ne.symm (pow_ne_zero 2 (sub_ne_zero.mpr hne)))
  have hinner_nonneg : ∀ x, ∀ y ∈ ((x1 :: x2 :: rest).map fun y => (x - y) ^ 2), 0 ≤ y := by
    intro x y hy
    rcases List.mem_map.mp hy with ⟨z, _, rfl⟩
    exact sq_nonneg _
  have hinner_pos : 0 < ((x1 :: x2 :: rest).map fun y => (x1 - y) ^ 2).sum := by
    apply sum_pos_of_mem_pos _ (hinner_nonneg x1) ((x1 - x2) ^ 2)
    · exact List.mem_map_of_mem _ (by simp)
    · exact hsq_pos
  have houter_pos :
      0 < ((x1 :: x2 :: rest).map fun x =>
        ((x1 :: x2 :: rest).map fun y => (x - y) ^ 2).sum).sum := by
    apply sum_pos_of_mem_pos _ ?_ _ (List.mem_map_of_mem _ (show x1 ∈ x1 :: x2 :: rest by simp)) hinner_pos
    intro s hs
    rcases List.mem_map.mp hs with ⟨z, _, rfl⟩
    exact List.sum_nonneg (hinner_nonneg z)
  have hps := pairSq (x1 :: x2 :: rest)
  rw [hps] at houter_pos
  linarith

lemma residSum_eq (pts : List (ℚ × ℚ)) (a b : ℚ) :
    (pts.map fun p => p.2 - a - b * p.1).sum
      = sumY pts - (pts.length : ℚ) * a - b * sumX pts := by
  induction pts with
  | nil => simp [sumY, sumX]
  | cons p ps ih =>
    simp only [List.map_cons, List.sum_cons, List.length_cons, sumY, sumX] at *
    push_cast
    linear_combination ih

lemma residXSum_eq (pts : List (ℚ × ℚ)) (a b : ℚ) :
    (pts.map fun p => (p.2 - a - b * p.1) * p.1).sum
      = sumXY pts - a * sumX pts - b * sumXX pts := by
  induction pts with
  | nil => simp [sumXY, sumX, sumXX]
  | cons p ps ih =>
    simp only [List.map_cons, List.sum_cons, sumXY, sumX, sumXX] at *
    linear_combination ih

lemma normal_eq1 (pts : List (ℚ × ℚ)) (hn : ((pts.length : ℚ)) ≠ 0) :
    (pts.map fun p => p.2 - olsIntercept pts - olsSlope pts * p.1).sum = 0 := by
  rw [residSum_eq, olsIntercept]
  field_simp

lemma normal_eq2 (pts : List (ℚ × ℚ)) (hn : ((pts.length : ℚ)) ≠ 0)
    (hd : olsDenom pts ≠ 0) :
    (pts.map fun p => (p.2 - olsIntercept pts - olsSlope pts * p.1) * p.1).sum = 0 := by
  rw [olsDenom] at hd
  simp only [residXSum_eq, olsIntercept, olsSlope, olsDenom]
  field_simp
  ring

lemma loss_decomp (pts : List (ℚ × ℚ)) (a b a' b' : ℚ) :
    lossAt pts a b
      = lossAt pts a' b'
        + (pts.map fun p => ((a' - a) + (b' - b) * p.1) ^ 2).sum
        + 2 * (a' - a) * (pts.map fun p => p.2 - a' - b' * p.1).sum
        + 2 * (b' - b) * (pts.map fun p => (p.2 - a' - b' * p.1) * p.1).sum := by
  induction pts with
  | nil => simp [lossAt]
  | cons p ps ih =>
    simp only [lossAt, List.map_cons, List.sum_cons] at *
    linear_combination ih

/- The closed-form slope/intercept minimise the sum of squared residuals
over all affine predictors — i.e. they are the OLS fit. -/
lemma ols_min (pts : List (ℚ × ℚ)) (hnd : (pts.map Prod.fst).Nodup)
    (h2 : 2 ≤ pts.length) (a b : ℚ) :
    lossAt pts (olsIntercept pts) (olsSlope pts) ≤ lossAt pts a b := by
  have hlen : 0 < pts.length := by omega
  have hn : ((pts.length : ℚ)) ≠ 0 := Nat.cast_ne_zero.mpr (by omega)
  have hxx : sumXX pts = ((pts.map Prod.fst).map fun y => y ^ 2).sum := by
    rw [sumXX, List.map_map]
    rfl
  have hlen2 : 2 ≤ (pts.map Prod.fst).length := by simpa using h2
  have hD0 := denom_pos (pts.map Prod.fst) hnd hlen2
  have hD : 0 < olsDenom pts := by
    rw [olsDenom, hxx]
    simpa [sumX] using hD0
  have hne1 := normal_eq1 pts hn
  have hne2 := normal_eq2 pts hn hD.ne'
  have hdec := loss_decomp pts a b (olsIntercept pts) (olsSlope pts)
  rw [hne1, hne2] at hdec
  have hsq : 0 ≤ (pts.map fun p =>
      ((olsIntercept pts - a) + (olsSlope pts - b) * p.1) ^ 2).sum := by
    apply List.sum_nonneg
    intro x hx
    rcases List.mem_map.mp hx with ⟨p, _, rfl⟩
    exact sq_nonneg _
  linarith

/- Dated records carry a real calendar month (1..12); holds for every
record produced by `parse_date`/the storage layer. -/
def monthsValid (l : List Expense) : Prop :=
  ∀ e ∈ l, ∀ d, e.date = some d → 1 ≤ d.month ∧ d.month ≤ 12

lemma monthKeys_month_bounds (l : List Expense) (k : Int × Int)
    (hk : k ∈ monthKeys l) (hval : monthsValid l) : 1 ≤ k.2 ∧ k.2 ≤ 12 := by
  rw [monthKeys, List.mem_dedup] at hk
  rcases List.mem_filterMap.mp hk with ⟨e, hel, he⟩
  rcases hd : e.date with _ | d
  · rw [monthKeyOf, hd] at he; exact absurd he (by simp)
  · rw [monthKeyOf, hd] at he
    have hk2 : k = (d.year, d.month) := (Option.some.inj he).symm
    rw [hk2]
    exact hval e hel d hd

lemma catMonths_nodup (l : List Expense) (c : String) : (catMonths l c).Nodup :=
  List.Nodup.filter _ (List.nodup_dedup _)

lemma catPoints_map_fst (l : List Expense) (c : String) :
    (catPoints l c).map Prod.fst
      = (catMonths l c).map fun k => ((monthIndex (minKey (monthKeys l)) k : ℚ)) := by
  rw [catPoints, List.map_map]
  rfl

lemma catPoints_length (l : List Expense) (c : String) :
    (catPoints l c).length = (catMonths l c).length := List.length_map _ _

/- The spec's forecasting examples. -/
def exForecast3 : List Expense :=
  [{ date := some ⟨2024, 1, 15⟩, category := "food", amount := 100 },
   { date := some ⟨2024, 2, 15⟩, category := "food", amount := 200 },
   { date := some ⟨2024, 3, 15⟩, category := "food", amount := 300 }]

def exForecast1 : List Expense :=
  [{ date := some ⟨2024, 1, 20⟩, category := "food", amount := 50 }]

/-- C4: per category `predict_monthly_expense` returns, for at least 2
month-index data points, the value of the least-squares line (clamped at
0) at the target month's global index — `ols_min` certifies the fitted
line minimises the sum of squared residuals — and, for fewer than 2
points, the arithmetic mean of the observed monthly totals.  Monthly
totals 100, 200, 300 at indices 0, 1, 2 forecast exactly 400 at index 3,
and a single 50 data point forecasts 50 at any target. -/
theorem predict_monthly_expense_spec :
    (∀ (l : List Expense) (target : Int × Int) (c : String),
      monthsValid l → c ∈ predCategories l →
      (2 ≤ (catMonths l c).length →
        predict_monthly_expense l target c
          = some (max 0 (olsIntercept (catPoints l c) + olsSlope (catPoints l c)
              * (monthIndex (minKey (monthKeys l)) target : ℚ)))
        ∧ ∀ a b : ℚ,
            lossAt (catPoints l c) (olsIntercept (catPoints l c)) (olsSlope (catPoints l c))
              ≤ lossAt (catPoints l c) a b)
      ∧ ((catMonths l c).length < 2 →
          predict_monthly_expense l target c
            = some (((catMonths l c).map fun k => monthCatTotal l k c).sum
                / ((catMonths l c).length : ℚ))))
    ∧ predict_monthly_expense exForecast3 (2024, 4) "food" = some 400
    ∧ predict_monthly_expense exForecast1 (2025, 7) "food" = some 50 := by
  refine ⟨?_, by with_unfolding_all rfl, by with_unfolding_all rfl⟩
  intro l target c hval hc
  have hl : l ≠ [] := by rintro rfl; simp [predCategories] at hc
  constructor
  · intro h2
    constructor
    · unfold predict_monthly_expense
      rw [if_neg hl, if_pos hc, if_neg (by omega : ¬ (catMonths l c).length < 2)]
    · intro a b
      apply ols_min
      · rw [catPoints_map_fst]
        apply List.Nodup.map_on ?_ (catMonths_nodup l c)
        intro k1 hk1 k2 hk2 heq
        have hidx : monthIndex (minKey (monthKeys l)) k1
            = monthIndex (minKey (monthKeys l)) k2 := by exact_mod_cast heq
        have hb1 := monthKeys_month_bounds l k1 (List.mem_of_mem_filter hk1) hval
        have hb2 := monthKeys_month_bounds l k2 (List.mem_of_mem_filter hk2) hval
        obtain ⟨y1, m1⟩ := k1
        obtain ⟨y2, m2⟩ := k2
        simp only [monthIndex] at hidx hb1 hb2
        have : y1 = y2 ∧ m1 = m2 := by omega
        rw [this.1, this.2]
      · rw [catPoints_length]; exact h2
  · intro hlt
    unfold predict_monthly_expense
    rw [if_neg hl, if_pos hc, if_pos hlt]

/-- C4 witness: the OLS branch of the theorem at the concrete
100/200/300 input. -/
theorem predict_monthly_expense_spec_witness :
    monthsValid exForecast3
    ∧ predict_monthly_expense exForecast3 (2024, 4) "food"
        = some (max 0 (olsIntercept (catPoints exForecast3 "food")
            + olsSlope (catPoints exForecast3 "food")
            * (monthIndex (minKey (monthKeys exForecast3)) (2024, 4) : ℚ))) := by
  have hval : monthsValid exForecast3 := by
    intro e he d hd
    fin_cases he <;> (injection hd with h; subst h; decide)
  exact ⟨hval,
    ((predict_monthly_expense_spec.1 exForecast3 (2024, 4) "food" hval (by decide)).1
      (by decide)).1⟩

/-- C8: with non-negative amounts, every value produced by
`predict_monthly_expense` is non-negative: the regression branch clamps
at zero and the mean fallback averages non-negative monthly totals. -/
theorem predict_monthly_expense_nonneg (l : List Expense) (target : Int × Int)
    (c : String) (v : ℚ) (hnn : ∀ e ∈ l, 0 ≤ e.amount)
    (h : predict_monthly_expense l target c = some v) : 0 ≤ v := by
  unfold predict_monthly_expense at h
  by_cases hl : l = []
  · rw [if_pos hl] at h; exact absurd h (by simp)
  · rw [if_neg hl] at h
    by_cases hc : c ∈ predCategories l
    · rw [if_pos hc] at h
      by_cases hlen : (catMonths l c).length < 2
      · rw [if_pos hlen] at h
        rw [← Option.some.inj h]
        apply div_nonneg
        · apply List.sum_nonneg
          intro x hx
          rcases List.mem_map.mp hx with ⟨k, _, rfl⟩
          exact bucketTotal_nonneg l _ c hnn
        · positivity
      · rw [if_neg hlen] at h
        rw [← Option.some.inj h]
        exact le_max_left _ _
    · rw [if_neg hc] at h; exact absurd h (by simp)

/-- C8 witness: the bound at the concrete 100/200/300 input. -/
theorem predict_monthly_expense_nonneg_witness :
    (∀ e ∈ exForecast3, 0 ≤ e.amount)
    ∧ predict_monthly_expense exForecast3 (2024, 4) "food" = some 400
    ∧ (0 : ℚ) ≤ 400 := by
  have hnn : ∀ e ∈ exForecast3, 0 ≤ e.amount := by
    intro e he; fin_cases he <;> norm_num
  have hp : predict_monthly_expense exForecast3 (2024, 4) "food" = some 400 := by
    with_unfolding_all rfl
  exact ⟨hnn, hp, predict_monthly_expense_nonneg exForecast3 (2024, 4) "food" 400 hnn hp⟩

/- ------------------------------------------------------------------
   parse_date  (analysis_utils.py lines 15-70)
   Python strings are modelled as lists of characters; the stdlib
   `date.fromisoformat` / `datetime.fromisoformat` are modelled for the
   shapes the parser feeds them: strict `YYYY-MM-DD`, optionally (for
   datetime) a `T`/space separator, `HH:MM[:SS]` and a numeric offset.
   ------------------------------------------------------------------ -/

/- `str.strip()`. -/
def pyStrip (s : List Char) : List Char :=
  ((s.dropWhile Char.isWhitespace).reverse.dropWhile Char.isWhitespace).reverse

/- `date_str.replace('Z', '+00:00')`. -/
def replaceZ : List Char → List Char
  | [] => []
  | c :: cs =>
    if c = 'Z' then '+' :: '0' :: '0' :: ':' :: '0' :: '0' :: replaceZ cs
    else c :: replaceZ cs

/- `datetime.date.fromisoformat`: strict zero-padded `YYYY-MM-DD` of a
valid calendar date. -/
def date_fromisoformat : List Char → Option Date
  | [y1, y2, y3, y4, s1, m1, m2, s2, d1, d2] =>
    if y1.isDigit && y2.isDigit && y3.isDigit && y4.isDigit && decide (s1 = '-')
        && m1.isDigit && m2.isDigit && decide (s2 = '-') && d1.isDigit && d2.isDigit then
      let y : Int := ((((y1.toNat - 48) * 10 + (y2.toNat - 48)) * 10
        + (y3.toNat - 48)) * 10 + (y4.toNat - 48) : ℕ)
      let m : Int := ((m1.toNat - 48) * 10 + (m2.toNat - 48) : ℕ)
      let d : Int := ((d1.toNat - 48) * 10 + (d2.toNat - 48) : ℕ)
      if validDate ⟨y, m, d⟩ then some ⟨y, m, d⟩ else none
    else none
  | _ => none

def validTime (l : List Char) : Bool :=
  match l with
  | [h1, h2, ':', m1, m2] =>
    h1.isDigit && h2.isDigit && m1.isDigit && m2.isDigit
      && decide ((h1.toNat - 48) * 10 + (h2.toNat - 48) < 24)
      && decide ((m1.toNat - 48) * 10 + (m2.toNat - 48) < 60)
  | [h1, h2, ':', m1, m2, ':', s1, s2] =>
    h1.isDigit && h2.isDigit && m1.isDigit && m2.isDigit && s1.isDigit && s2.isDigit
      && decide ((h1.toNat - 48) * 10 + (h2.toNat - 48) < 24)
      && decide ((m1.toNat - 48) * 10 + (m2.toNat - 48) < 60)
      && decide ((s1.toNat - 48) * 10 + (s2.toNat - 48) < 60)
  | _ => false

def validOffset (l : List Char) : Bool :=
  match l with
  | [sg, h1, h2, ':', m1, m2] =>
    (decide (sg = '+') || decide (sg = '-'))
      && h1.isDigit && h2.isDigit && m1.isDigit && m2.isDigit
  | _ => false

def validTimeOff (l : List Char) : Bool :=
  validTime l || (validTime (l.take 5) && validOffset (l.drop 5))
    || (validTime (l.take 8) && validOffset (l.drop 8))

/- `datetime.fromisoformat(...).date()`. -/
def datetime_fromisoformat (s : List Char) : Option Date :=
  match date_fromisoformat (s.take 10) with
  | none => none
  | some d =>
    match s.drop 10 with
    | [] => some d
    | sep :: timePart =>
      if (decide (sep = 'T') || decide (sep = ' ')) && validTimeOff timePart then some d
      else none

/- The argument of `parse_date`: already a `date`, `None`, or a string. -/
inductive DateInput where
  | dt (d : Date)
  | noneV
  | str (s : List Char)

/- The `ValueError`s `parse_date` can raise, by what their message
carries: `invalidIso s` is the error raised by `fromisoformat(s)` (its
message carries `s`); `dateParseError s` is the parser's own final raise,
whose message embeds the full (stripped) input. -/
inductive ParseErr where
  | noneInput
  | emptyInput
  | invalidIso (s : List Char)
  | dateParseError (s : List Char)
deriving DecidableEq, Repr

def parse_date : DateInput → Except ParseErr Date
  | .dt d => .ok d
  | .noneV => .error .noneInput
  | .str raw =>
    let ds := pyStrip raw
    if ds = [] then .error .emptyInput
    else if ds.contains 'T' then
      let date_part := ds.takeWhile fun c => !decide (c = 'T')
      match date_fromisoformat date_part with
      | some d => .ok d
      | none =>
        match datetime_fromisoformat (replaceZ ds) with
        | some d => .ok d
        | none =>
          match date_fromisoformat (pyStrip date_part) with
          | some d => .ok d
          | none => .error (.invalidIso (pyStrip date_part))
    else if ds.contains ' ' then
      let date_part := ds.takeWhile fun c => !decide (c = ' ')
      match date_fromisoformat date_part with
      | some d => .ok d
      | none =>
        match datetime_fromisoformat ds with
        | some d => .ok d
        | none =>
          match date_fromisoformat (pyStrip date_part) with
          | some d => .ok d
          | none => .error (.invalidIso (pyStrip date_part))
    else
      match date_fromisoformat ds with
      | some d => .ok d
      | none => .error (.dateParseError ds)

/-- C9: on the empty record list all four analytics functions return an
empty result (empty mapping or empty sequence); being total Lean
functions, the embeddings assign every degenerate input a defined,
non-throwing value. -/
theorem empty_input_empty_results :
    (∀ c, calculate_category_stats [] c = none)
    ∧ detect_outliers [] = []
    ∧ (∀ ref c, calculate_mom_growth [] ref c = none)
    ∧ (∀ t c, predict_monthly_expense [] t c = none) :=
  ⟨fun _ => rfl, rfl, fun _ _ => rfl, fun _ _ => rfl⟩

lemma digCh_props (n : ℕ) (h : n < 10) :
    (digCh n).isDigit = true ∧ (digCh n).isWhitespace = false
      ∧ (('T' == digCh n) = false) ∧ ((' ' == digCh n) = false)
      ∧ ((digCh n).toNat - 48 = n) := by
  interval_cases n <;> decide

lemma dateToIso_ne_nil (d : Date) : dateToIso d ≠ [] := by
  rw [dateToIso]; simp

lemma pyStrip_dateToIso (d : Date) (hv : validDate d) :
    pyStrip (dateToIso d) = dateToIso d := by
  obtain ⟨hy1, hy9, hm1, hm12, hd1, hd31⟩ := hv
  have pA := digCh_props (d.year.toNat / 1000) (by omega)
  have pH := digCh_props (d.day.toNat % 10) (by omega)
  rw [dateToIso, pyStrip]
  simp [List.dropWhile_cons, pA.2.1, pH.2.1]

lemma contains_T_dateToIso (d : Date) (hv : validDate d) :
    (dateToIso d).contains 'T' = false := by
  obtain ⟨hy1, hy9, hm1, hm12, hd1, hd31⟩ := hv
  have hdm : daysInMonth d.year d.month ≤ 31 := by
    rw [daysInMonth]; split_ifs <;> omega
  have pA := digCh_props (d.year.toNat / 1000) (by omega)
  have pB := digCh_props (d.year.toNat / 100 % 10) (by omega)
  have pC := digCh_props (d.year.toNat / 10 % 10) (by omega)
  have pD := digCh_props (d.year.toNat % 10) (by omega)
  have pE := digCh_props (d.month.toNat / 10) (by omega)
  have pF := digCh_props (d.month.toNat % 10) (by omega)
  have pG := digCh_props (d.day.toNat / 10) (by omega)
  have pH := digCh_props (d.day.toNat % 10) (by omega)
  rw [dateToIso]
  simp [List.contains, List.elem, pA.2.2.1, pB.2.2.1, pC.2.2.1, pD.2.2.1,
    pE.2.2.1, pF.2.2.1, pG.2.2.1, pH.2.2.1]

lemma contains_space_dateToIso (d : Date) (hv : validDate d) :
    (dateToIso d).contains ' ' = false := by
  obtain ⟨hy1, hy9, hm1, hm12, hd1, hd31⟩ := hv
  have hdm : daysInMonth d.year d.month ≤ 31 := by
    rw [daysInMonth]; split_ifs <;> omega
  have pA := digCh_props (d.year.toNat / 1000) (by omega)
  have pB := digCh_props (d.year.toNat / 100 % 10) (by omega)
  have pC := digCh_props (d.year.toNat / 10 % 10) (by omega)
  have pD := digCh_props (d.year.toNat % 10) (by omega)
  have pE := digCh_props (d.month.toNat / 10) (by omega)
  have pF := digCh_props (d.month.toNat % 10) (by omega)
  have pG := digCh_props (d.day.toNat / 10) (by omega)
  have pH := digCh_props (d.day.toNat % 10) (by omega)
  rw [dateToIso]
  simp [List.contains, List.elem, pA.2.2.2.1, pB.2.2.2.1, pC.2.2.2.1, pD.2.2.2.1,
    pE.2.2.2.1, pF.2.2.2.1, pG.2.2.2.1, pH.2.2.2.1]

lemma date_fromisoformat_toIso (d : Date) (hv : validDate d) :
    date_fromisoformat (dateToIso d) = some d := by
  obtain ⟨y, m, dd⟩ := d
  obtain ⟨hy1, hy9, hm1, hm12, hd1, hd31⟩ := hv
  dsimp only at hy1 hy9 hm1 hm12 hd1 hd31
  have hdm : daysInMonth y m ≤ 31 := by
    rw [daysInMonth]; split_ifs <;> omega
  have pA := digCh_props (y.toNat / 1000) (by omega)
  have pB := digCh_props (y.toNat / 100 % 10) (by omega)
  have pC := digCh_props (y.toNat / 10 % 10) (by omega)
  have pD := digCh_props (y.toNat % 10) (by omega)
  have pE := digCh_props (m.toNat / 10) (by omega)
  have pF := digCh_props (m.toNat % 10) (by omega)
  have pG := digCh_props (dd.toNat / 10) (by omega)
  have pH := digCh_props (dd.toNat % 10) (by omega)
  rw [dateToIso]
  rw [date_fromisoformat]
  rw [pA.1, pB.1, pC.1, pD.1, pE.1, pF.1, pG.1, pH.1]
  simp only [pA.2.2.2.2, pB.2.2.2.2, pC.2.2.2.2, pD.2.2.2.2,
    pE.2.2.2.2, pF.2.2.2.2, pG.2.2.2.2, pH.2.2.2.2]
  have hyv : (((y.toNat / 1000 * 10 + y.toNat / 100 % 10) * 10 + y.toNat / 10 % 10) * 10
      + y.toNat % 10 : ℕ) = y.toNat := by omega
  have hmv : (m.toNat / 10 * 10 + m.toNat % 10 : ℕ) = m.toNat := by omega
  have hdv : (dd.toNat / 10 * 10 + dd.toNat % 10 : ℕ) = dd.toNat := by omega
  rw [hyv, hmv, hdv]
  have hyc : ((y.toNat : ℤ)) = y := Int.toNat_of_nonneg (by omega)
  have hmc : ((m.toNat : ℤ)) = m := Int.toNat_of_nonneg (by omega)
  have hdc : ((dd.toNat : ℤ)) = dd := Int.toNat_of_nonneg (by omega)
  rw [hyc, hmc, hdc]
  have hv' : validDate ⟨y, m, dd⟩ := ⟨hy1, hy9, hm1, hm12, hd1, hd31⟩
  simp [hv']

lemma parse_date_plain (s : List Char) (hs : pyStrip s = s) (hne : s ≠ [])
    (hT : s.contains 'T' = false) (hSp : s.contains ' ' = false) :
    parse_date (.str s)
      = match date_fromisoformat s with
        | some d => .ok d
        | none => .error (.dateParseError s) := by
  simp only [parse_date, hs, hne, hT, hSp]
  simp

/-- C6: the three accepted textual shapes of 2024-03-05 all parse to the
same calendar date; `parse_date` is idempotent — re-parsing the ISO
string of any valid parse result returns the same date, and a native
date value is returned unchanged. -/
theorem parse_date_roundtrip :
    parse_date (.str ("2024-03-05".data)) = .ok ⟨2024, 3, 5⟩
    ∧ parse_date (.str ("2024-03-05T00:00:00".data)) = .ok ⟨2024, 3, 5⟩
    ∧ parse_date (.str ("2024-03-05 00:00:00".data)) = .ok ⟨2024, 3, 5⟩
    ∧ (∀ d : Date, validDate d → parse_date (.str (dateToIso d)) = .ok d)
    ∧ (∀ d : Date, parse_date (.dt d) = .ok d) := by
  refine ⟨by rfl, by rfl, by rfl, ?_, fun d => rfl⟩
  intro d hv
  rw [parse_date_plain (dateToIso d) (pyStrip_dateToIso d hv) (dateToIso_ne_nil d)
    (contains_T_dateToIso d hv) (contains_space_dateToIso d hv)]
  rw [date_fromisoformat_toIso d hv]

/-- C6 witness: the idempotence branch applied at the concrete date
2024-03-05. -/
theorem parse_date_roundtrip_witness :
    validDate ⟨2024, 3, 5⟩
    ∧ parse_date (.str (dateToIso ⟨2024, 3, 5⟩)) = .ok ⟨2024, 3, 5⟩ :=
  ⟨by decide, parse_date_roundtrip.2.2.2.1 ⟨2024, 3, 5⟩ (by decide)⟩

/-- C7 counterexample: the input "aTb" is non-empty, is not a date, and
exhausts every fallback, yet the error raised is the underlying
`fromisoformat` error carrying only the prefix "a" — not the parser's
DateParseError carrying the original string "aTb". -/
theorem parse_date_error_counterexample :
    parse_date (.str ("aTb".data)) = .error (.invalidIso ("a".data))
    ∧ parse_date (.str ("aTb".data)) ≠ .error (.dateParseError ("aTb".data)) := by
  have h1 : parse_date (.str ("aTb".data)) = .error (.invalidIso ("a".data)) := by rfl
  refine ⟨h1, fun hcontra => ?_⟩
  rw [h1] at hcontra
  exact absurd (Except.error.inj hcontra) (by decide)

/-- C7 (amended): when every fallback fails the parser always raises,
but the error carries the original (stripped) string only in the plain
branch; in the `T`- and space-branches it is the underlying
`fromisoformat` error carrying only the date-part prefix. -/
theorem parse_date_error_spec (s : List Char) (hne : pyStrip s ≠ []) :
    ((pyStrip s).contains 'T' = false → (pyStrip s).contains ' ' = false →
      date_fromisoformat (pyStrip s) = none →
      parse_date (.str s) = .error (.dateParseError (pyStrip s)))
    ∧ ((pyStrip s).contains 'T' = true →
      date_fromisoformat ((pyStrip s).takeWhile fun c => !decide (c = 'T')) = none →
      datetime_fromisoformat (replaceZ (pyStrip s)) = none →
      date_fromisoformat (pyStrip ((pyStrip s).takeWhile fun c => !decide (c = 'T'))) = none →
      parse_date (.str s)
        = .error (.invalidIso (pyStrip ((pyStrip s).takeWhile fun c => !decide (c = 'T')))))
    ∧ ((pyStrip s).contains 'T' = false → (pyStrip s).contains ' ' = true →
      date_fromisoformat ((pyStrip s).takeWhile fun c => !decide (c = ' ')) = none →
      datetime_fromisoformat (pyStrip s) = none →
      date_fromisoformat (pyStrip ((pyStrip s).takeWhile fun c => !decide (c = ' '))) = none →
      parse_date (.str s)
        = .error (.invalidIso (pyStrip ((pyStrip s).takeWhile fun c => !decide (c = ' '))))) := by
  refine ⟨?_, ?_, ?_⟩
  · intro hT hSp hfail
    simp only [parse_date, hne, hT, hSp, hfail]
    simp
  · intro hT h1 h2 h3
    simp only [parse_date, hne, hT, h1, h2, h3]
    simp
  · intro hT hSp h1 h2 h3
    simp only [parse_date, hne, hT, hSp, h1, h2, h3]
    simp

/-- C7 witness (amended theorem): the plain branch raises the
DateParseError carrying the stripped original string on "garbage". -/
theorem parse_date_error_spec_witness :
    pyStrip ("garbage".data) ≠ []
    ∧ parse_date (.str ("garbage".data))
        = .error (.dateParseError (pyStrip ("garbage".data))) :=
  ⟨by decide,
    (parse_date_error_spec ("garbage".data) (by decide)).1 (by decide) (by decide) (by rfl)⟩
